import Mathlib

/-!
# bankingSystemProject: a shallow embedding of `bankingSystemProject.cpp`

The C++ program keeps a global `map<int, BankAccount*> accounts`; every account owns a
balance, a mutex and a queue of pending transactions.  `main` fills the map, queues the
transactions, starts one thread per account running `processTransactions`, joins the threads
and prints the balances.

Modelling decisions.

* `int` is the 32-bit signed integer.  A value is an `Int`; the result of `balance += amount`
  and `balance -= amount` is stored through `Arith.store`.  Under `Arith.int32`, the arithmetic
  of the program, the stored value is the result reduced modulo `2^32` into
  `[-2147483648, 2147483647]` (`wrap32`), which is what the compiled program does on overflow.
  Under `Arith.exact` nothing is reduced: this is the reading "balances taken as mathematical
  integers".  Comparisons are exact in both.
* The map is an association list of accounts keyed by the `id` field of the account (the only
  insertion site, `accounts[acc_id] = new BankAccount(acc_id, ...)`, stores every account under
  its own id).  A lookup returns the first account with the key, a write through the pointer
  obtained from a lookup rewrites that first account.
* Every balance access of the program happens with the mutex of the account held, so one
  `deposit`, `withdraw` or `transfer` is one atomic step on the ledger.  The mutex operations of
  `transfer` are recorded as a list of `GuardAction`s.
* Dereferencing the null pointer that `accounts[id]` yields for an absent id is modelled by
  `none`.
-/

namespace BankingSystem

/-- A queued transaction, `pair<string, pair<int, int>>`: type, amount, destination. -/
abbrev Txn := String × (Int × Int)

/-- The class `BankAccount` without its mutex. -/
structure BankAccount where
  id : Int
  balance : Int
  transactionQueue : List Txn
deriving DecidableEq

/-- A mutex operation on the mutex of the account with the given id. -/
inductive GuardAction where
  | lock (id : Int)
  | unlock (id : Int)
deriving DecidableEq

/-- The global `map<int, BankAccount*> accounts`. -/
abbrev Accounts := List BankAccount

/-- The value lies in the range of the 32-bit `int`. -/
def fitsInt (x : Int) : Prop := -2147483648 ≤ x ∧ x ≤ 2147483647

/-- Membership in the range of `int` is decidable. -/
instance fitsInt.decidable (x : Int) : Decidable (fitsInt x) := by
  unfold fitsInt; infer_instance

/-- The 32-bit two's complement value of a result: reduced modulo `2^32` into the range of
`int`. -/
def wrap32 (x : Int) : Int := (x + 2147483648) % 4294967296 - 2147483648

/-- The arithmetic in which balances are computed: the 32-bit `int` of the program, or
mathematical integers. -/
inductive Arith where
  | int32
  | exact
deriving DecidableEq

/-- The value stored for the result `x` of an addition or subtraction on a balance. -/
def Arith.store : Arith → Int → Int
  | Arith.int32, x => wrap32 x
  | Arith.exact, x => x

namespace BankAccount

/-- The constructor `BankAccount(account_id, initial_balance)`: the queue starts empty. -/
def new (account_id initial_balance : Int) : BankAccount :=
  { id := account_id, balance := initial_balance, transactionQueue := [] }

/-- The method `deposit`: `balance += amount`. -/
def deposit (ar : Arith) (self : BankAccount) (amount : Int) : BankAccount :=
  { self with balance := ar.store (self.balance + amount) }

/-- The method `withdraw`: `balance -= amount` when `balance >= amount`, else nothing. -/
def withdraw (ar : Arith) (self : BankAccount) (amount : Int) : BankAccount :=
  if self.balance ≥ amount then { self with balance := ar.store (self.balance - amount) }
  else self

/-- The account with its queue replaced by `queue`, as after a `pop` or a `push`. -/
def withQueue (self : BankAccount) (queue : List Txn) : BankAccount :=
  { self with transactionQueue := queue }

end BankAccount

namespace Accounts

/-- The lookup `accounts.find(key)`: `none` stands for `accounts.end()`. -/
def find : Accounts → Int → Option BankAccount
  | [], _ => none
  | a :: rest, key => if a.id = key then some a else find rest key

/-- A write through the pointer stored under `key`: the account found by `find` is replaced by
its image under `f`. -/
def update : Accounts → Int → (BankAccount → BankAccount) → Accounts
  | [], _, _ => []
  | a :: rest, key, f => if a.id = key then f a :: rest else a :: update rest key f

/-- The assignment `accounts[b.id] = b`: an account stored under the key is replaced, otherwise
the new account is inserted in key order. -/
def assign : Accounts → BankAccount → Accounts
  | [], b => [b]
  | a :: rest, b =>
    if b.id < a.id then b :: a :: rest
    else if a.id = b.id then b :: rest
    else a :: assign rest b

/-- The balance printed for the account stored under `key`. -/
def balanceOf (accounts : Accounts) (key : Int) : Option Int :=
  (accounts.find key).map BankAccount.balance

/-- The pending queue of the account stored under `key`. -/
def queueOf (accounts : Accounts) (key : Int) : Option (List Txn) :=
  (accounts.find key).map BankAccount.transactionQueue

/-- The sum of the balances of all accounts, as a mathematical integer. -/
def total (accounts : Accounts) : Int :=
  (accounts.map BankAccount.balance).sum

end Accounts

/-- The function `transfer`, returning the new ledger and the mutex operations it performed. -/
def transferExec (ar : Arith) (accounts : Accounts) (from_id to_id amount : Int) :
    Option (Accounts × List GuardAction) :=
  if from_id = to_id then some (accounts, [])
  else
    match accounts.find from_id, accounts.find to_id with
    | some fromAcc, some toAcc =>
      let first := if from_id < to_id then fromAcc else toAcc
      let second := if from_id < to_id then toAcc else fromAcc
      let accounts1 :=
        if fromAcc.balance ≥ amount then
          (accounts.update from_id
            (fun a => { a with balance := ar.store (a.balance - amount) })).update
            to_id (fun a => { a with balance := ar.store (a.balance + amount) })
        else accounts
      some (accounts1, [GuardAction.lock first.id, GuardAction.lock second.id,
        GuardAction.unlock second.id, GuardAction.unlock first.id])
    | _, _ => none

/-- The ledger after `transfer(from_id, to_id, amount)`. -/
def transfer (ar : Arith) (accounts : Accounts) (from_id to_id amount : Int) :
    Option Accounts :=
  (transferExec ar accounts from_id to_id amount).map Prod.fst

/-- The mutex operations performed by `transfer(from_id, to_id, amount)`. -/
def transferGuards (ar : Arith) (accounts : Accounts) (from_id to_id amount : Int) :
    Option (List GuardAction) :=
  (transferExec ar accounts from_id to_id amount).map Prod.snd

/-- The body of the loop of `processTransactions` after the pop: the worker of the account
stored under `self` executes `txn`.  A type other than the three known ones does nothing. -/
def execTxn (ar : Arith) (accounts : Accounts) (self : Int) (txn : Txn) : Option Accounts :=
  match accounts.find self with
  | none => none
  | some account =>
    let type := txn.1
    let amount := txn.2.1
    let target := txn.2.2
    if type = "deposit" then
      some (accounts.update self (fun a => BankAccount.deposit ar a amount))
    else if type = "withdraw" then
      some (accounts.update self (fun a => BankAccount.withdraw ar a amount))
    else if type = "transfer" then transfer ar accounts account.id target amount
    else some accounts

/-- The thread function `processTransactions` run on the account stored under `self`, with
fuel for the `while` loop: `none` when the fuel runs out or a null pointer is dereferenced. -/
def processTransactions (ar : Arith) : Nat → Accounts → Int → Option Accounts
  | 0, _, _ => none
  | fuel + 1, accounts, self =>
    match accounts.find self with
    | none => none
    | some account =>
      match account.transactionQueue with
      | [] => some accounts
      | txn :: rest =>
        match execTxn ar (accounts.update self (fun a => a.withQueue rest)) self txn with
        | none => none
        | some accounts1 => processTransactions ar fuel accounts1 self

/-- The body of the account creation loop of `main`:
`accounts[acc_id] = new BankAccount(acc_id, initial_balance)`. -/
def createAccount (accounts : Accounts) (acc_id initial_balance : Int) : Accounts :=
  accounts.assign (BankAccount.new acc_id initial_balance)

/-- The body of the transaction input loop of `main`.  `destInput` is the destination read from
the input, which is consulted for a transfer only; other types are queued with `dest = -1`. -/
def enqueueTransaction (accounts : Accounts) (acc_id : Int) (type : String) (amount : Int)
    (destInput : Int) : Accounts :=
  match accounts.find acc_id with
  | none => accounts
  | some _ =>
    if type = "transfer" then
      match accounts.find destInput with
      | none => accounts
      | some _ =>
        accounts.update acc_id
          (fun a => { a with transactionQueue := a.transactionQueue ++ [(type, (amount, destInput))] })
    else
      accounts.update acc_id
        (fun a => { a with transactionQueue := a.transactionQueue ++ [(type, (amount, -1))] })

/-- The operations `ops`, each given with the id of the account whose worker executes it,
applied one after another. -/
def runOps (ar : Arith) : Accounts → List (Int × Txn) → Option Accounts
  | accounts, [] => some accounts
  | accounts, (self, txn) :: rest =>
    match execTxn ar accounts self txn with
    | none => none
    | some accounts1 => runOps ar accounts1 rest

/-- The transfers `ts`, given as (source, destination, amount), applied one after another. -/
def runTransfers (ar : Arith) : Accounts → List (Int × Int × Int) → Option Accounts
  | accounts, [] => some accounts
  | accounts, (from_id, to_id, amount) :: rest =>
    match transfer ar accounts from_id to_id amount with
    | none => none
    | some accounts1 => runTransfers ar accounts1 rest

/-- Neither balance that `transfer(from_id, to_id, amount)` writes on this ledger leaves the
range of `int`; a transfer that writes nothing qualifies. -/
def transferFits (accounts : Accounts) (from_id to_id amount : Int) : Bool :=
  if from_id = to_id then true
  else
    match accounts.find from_id, accounts.find to_id with
    | some fromAcc, some toAcc =>
      if fromAcc.balance ≥ amount then
        decide (fitsInt (fromAcc.balance - amount)) && decide (fitsInt (toAcc.balance + amount))
      else true
    | _, _ => true

/-- No balance written while the transfers `ts` run one after another on the 32-bit ledger
leaves the range of `int`. -/
def runFits : Accounts → List (Int × Int × Int) → Bool
  | _, [] => true
  | accounts, (from_id, to_id, amount) :: rest =>
    transferFits accounts from_id to_id amount &&
      match transfer Arith.int32 accounts from_id to_id amount with
      | none => true
      | some accounts1 => runFits accounts1 rest

/-- The ids whose mutex is held after the given mutex operations, starting from `held`. -/
def heldAfter : List Int → List GuardAction → List Int
  | held, [] => held
  | held, GuardAction.lock id :: rest => heldAfter (id :: held) rest
  | held, GuardAction.unlock id :: rest => heldAfter (held.erase id) rest

/-- Every `lock` in the trace happens while only mutexes of strictly smaller ids are held. -/
def lockOrderOk : List Int → List GuardAction → Bool
  | _, [] => true
  | held, GuardAction.lock id :: rest =>
    held.all (fun h => decide (h < id)) && lockOrderOk (id :: held) rest
  | held, GuardAction.unlock id :: rest => lockOrderOk (held.erase id) rest

/-- The ledger after a transfer that the balance check lets through. -/
def moved (ar : Arith) (accounts : Accounts) (from_id to_id amount : Int) : Accounts :=
  (accounts.update from_id (fun a => { a with balance := ar.store (a.balance - amount) })).update
    to_id (fun a => { a with balance := ar.store (a.balance + amount) })

/-! ## Lemmas on the association list -/

theorem Accounts.find_id {accounts : Accounts} {key : Int} {a : BankAccount}
    (h : accounts.find key = some a) : a.id = key := by
  induction accounts with
  | nil => simp [Accounts.find] at h
  | cons b rest ih =>
    unfold Accounts.find at h
    split at h
    · cases h; assumption
    · exact ih h

theorem Accounts.mem_of_find {accounts : Accounts} {key : Int} {a : BankAccount}
    (h : accounts.find key = some a) : a ∈ accounts := by
  induction accounts with
  | nil => simp [Accounts.find] at h
  | cons b rest ih =>
    unfold Accounts.find at h
    split at h
    · cases h; exact List.mem_cons_self _ _
    · exact List.mem_cons_of_mem _ (ih h)

theorem Accounts.find_update {accounts : Accounts} (f : BankAccount → BankAccount)
    (hf : ∀ a, (f a).id = a.id) (key k : Int) :
    (accounts.update key f).find k =
      if k = key then (accounts.find key).map f else accounts.find k := by
  induction accounts with
  | nil => simp [Accounts.find, Accounts.update]
  | cons b rest ih =>
    by_cases hb : b.id = key
    · by_cases hk : k = key
      · simp [Accounts.find, Accounts.update, hb, hk, hf]
      · have hk2 : ¬ key = k := fun h => hk h.symm
        simp [Accounts.find, Accounts.update, hb, hk, hk2, hf]
    · by_cases hk : k = key
      · subst hk
        simp [Accounts.find, Accounts.update, hb, ih]
      · simp only [Accounts.update, hb, if_false, Accounts.find, ih, hk]

theorem Accounts.find_update_self {accounts : Accounts} (f : BankAccount → BankAccount)
    (hf : ∀ a, (f a).id = a.id) (key : Int) :
    (accounts.update key f).find key = (accounts.find key).map f := by
  rw [Accounts.find_update f hf]; simp

theorem Accounts.find_update_other {accounts : Accounts} (f : BankAccount → BankAccount)
    (hf : ∀ a, (f a).id = a.id) {key k : Int} (hk : k ≠ key) :
    (accounts.update key f).find k = accounts.find k := by
  rw [Accounts.find_update f hf]; simp [hk]

theorem Accounts.total_update {accounts : Accounts} {key : Int} {a : BankAccount}
    (f : BankAccount → BankAccount) (h : accounts.find key = some a) :
    (accounts.update key f).total = accounts.total - a.balance + (f a).balance := by
  induction accounts with
  | nil => simp [Accounts.find] at h
  | cons b rest ih =>
    by_cases hb : b.id = key
    · simp [Accounts.find, hb] at h
      subst h
      simp [Accounts.update, Accounts.total, hb, add_comm]
    · simp [Accounts.find, hb] at h
      have := ih h
      simp only [Accounts.total] at this
      simp only [Accounts.update, hb, if_false, Accounts.total, List.map_cons, List.sum_cons, this]
      ring

theorem Accounts.mem_update {accounts : Accounts} {key : Int} {f : BankAccount → BankAccount}
    {b : BankAccount} (h : b ∈ accounts.update key f) :
    b ∈ accounts ∨ ∃ a, accounts.find key = some a ∧ b = f a := by
  induction accounts with
  | nil => simp [Accounts.update] at h
  | cons c rest ih =>
    by_cases hc : c.id = key
    · simp only [Accounts.update, hc, if_true] at h
      rcases List.mem_cons.1 h with h1 | h1
      · exact Or.inr ⟨c, by simp [Accounts.find, hc], h1⟩
      · exact Or.inl (List.mem_cons_of_mem _ h1)
    · simp only [Accounts.update, hc, if_false] at h
      rcases List.mem_cons.1 h with h1 | h1
      · exact Or.inl (h1 ▸ List.mem_cons_self _ _)
      · rcases ih h1 with h2 | ⟨a, ha, hba⟩
        · exact Or.inl (List.mem_cons_of_mem _ h2)
        · exact Or.inr ⟨a, by simpa [Accounts.find, hc] using ha, hba⟩

theorem Accounts.find_assign_self (accounts : Accounts) (b : BankAccount) :
    (accounts.assign b).find b.id = some b := by
  induction accounts with
  | nil => simp [Accounts.assign, Accounts.find]
  | cons a rest ih =>
    unfold Accounts.assign
    split
    · simp [Accounts.find]
    · split
      · simp [Accounts.find]
      · rename_i h
        simp [Accounts.find, h, ih]

theorem Accounts.find_assign_other (accounts : Accounts) (b : BankAccount) {k : Int}
    (hk : k ≠ b.id) : (accounts.assign b).find k = accounts.find k := by
  have hk1 : ¬ b.id = k := fun h => hk h.symm
  induction accounts with
  | nil => simp [Accounts.assign, Accounts.find, hk1]
  | cons a rest ih =>
    unfold Accounts.assign
    split
    · simp [Accounts.find, hk1]
    · split
      · rename_i h
        have : ¬ a.id = k := by rw [h]; exact hk1
        simp [Accounts.find, hk1, this]
      · simp only [Accounts.find, ih]

theorem Accounts.update_comm {accounts : Accounts} (f g : BankAccount → BankAccount)
    (hf : ∀ a, (f a).id = a.id) (hg : ∀ a, (g a).id = a.id) (hfg : ∀ a, g (f a) = f (g a))
    (k1 k2 : Int) :
    (accounts.update k1 f).update k2 g = (accounts.update k2 g).update k1 f := by
  induction accounts with
  | nil => rfl
  | cons a rest ih =>
    by_cases h1 : a.id = k1
    · subst h1
      by_cases h2 : a.id = k2
      · subst h2
        simp [Accounts.update, hf, hg, hfg]
      · simp [Accounts.update, h2, hf]
    · by_cases h2 : a.id = k2
      · subst h2
        simp [Accounts.update, h1, hg]
      · simp [Accounts.update, h1, h2, ih]

theorem Accounts.update_update_same {accounts : Accounts} (f g : BankAccount → BankAccount)
    (hf : ∀ a, (f a).id = a.id) (key : Int) :
    (accounts.update key f).update key g = accounts.update key (fun a => g (f a)) := by
  induction accounts with
  | nil => rfl
  | cons a rest ih =>
    by_cases h1 : a.id = key
    · subst h1
      simp [Accounts.update, hf]
    · simp [Accounts.update, h1, ih]

theorem Accounts.update_eq_self {accounts : Accounts} (f : BankAccount → BankAccount)
    {key : Int} (h : ∀ a, accounts.find key = some a → f a = a) :
    accounts.update key f = accounts := by
  induction accounts with
  | nil => rfl
  | cons a rest ih =>
    by_cases h1 : a.id = key
    · subst h1
      have := h a (by simp [Accounts.find])
      simp [Accounts.update, this]
    · have hrest : ∀ b, Accounts.find rest key = some b → f b = b := by
        intro b hb
        exact h b (by simpa [Accounts.find, h1] using hb)
      simp [Accounts.update, h1, ih hrest]

theorem Accounts.find_update_isSome {accounts : Accounts} (f : BankAccount → BankAccount)
    (hf : ∀ a, (f a).id = a.id) (key k : Int) :
    ((accounts.update key f).find k).isSome = (accounts.find k).isSome := by
  rw [Accounts.find_update f hf]
  by_cases hk : k = key
  · subst hk; simp
  · simp [hk]

/-! ## Lemmas on the arithmetic -/

theorem wrap32_of_fitsInt {x : Int} (h : fitsInt x) : wrap32 x = x := by
  unfold fitsInt at h
  unfold wrap32
  omega

theorem store_int32_of_fitsInt {x : Int} (h : fitsInt x) : Arith.int32.store x = x :=
  wrap32_of_fitsInt h

theorem store_exact (x : Int) : Arith.exact.store x = x := rfl

/-! ## Lemmas on `transfer` -/

theorem transferExec_eq (ar : Arith) {accounts : Accounts} {from_id to_id : Int}
    {fromAcc toAcc : BankAccount}
    (amount : Int) (hne : from_id ≠ to_id) (hf : accounts.find from_id = some fromAcc)
    (ht : accounts.find to_id = some toAcc) :
    transferExec ar accounts from_id to_id amount =
      some (if fromAcc.balance ≥ amount then moved ar accounts from_id to_id amount
          else accounts,
        [GuardAction.lock (min from_id to_id), GuardAction.lock (max from_id to_id),
         GuardAction.unlock (max from_id to_id), GuardAction.unlock (min from_id to_id)]) := by
  have h1 := Accounts.find_id hf
  have h2 := Accounts.find_id ht
  unfold transferExec
  rw [if_neg hne]
  simp only [hf, ht, moved]
  by_cases hlt : from_id < to_id
  · simp [hlt, h1, h2, min_eq_left hlt.le, max_eq_right hlt.le]
  · have hgt : to_id ≤ from_id := not_lt.1 hlt
    simp [hlt, h1, h2, min_eq_right hgt, max_eq_left hgt]

theorem transfer_eq (ar : Arith) {accounts : Accounts} {from_id to_id : Int}
    {fromAcc toAcc : BankAccount}
    (amount : Int) (hne : from_id ≠ to_id) (hf : accounts.find from_id = some fromAcc)
    (ht : accounts.find to_id = some toAcc) :
    transfer ar accounts from_id to_id amount =
      some (if fromAcc.balance ≥ amount then moved ar accounts from_id to_id amount
        else accounts) := by
  simp [transfer, transferExec_eq ar amount hne hf ht]

theorem transfer_self (ar : Arith) (accounts : Accounts) (x amount : Int) :
    transfer ar accounts x x amount = some accounts := by
  simp [transfer, transferExec]

theorem transfer_none_of_absent (ar : Arith) {accounts : Accounts} {from_id to_id : Int}
    (amount : Int) (hne : from_id ≠ to_id)
    (h : accounts.find from_id = none ∨ accounts.find to_id = none) :
    transfer ar accounts from_id to_id amount = none := by
  rcases h with h | h
  · simp [transfer, transferExec, hne, h]
  · cases hf : accounts.find from_id <;> simp [transfer, transferExec, hne, h, hf]

/-- The three ways a call of `transfer` that returns can have gone. -/
theorem transfer_cases {ar : Arith} {accounts accounts1 : Accounts}
    {from_id to_id amount : Int}
    (h : transfer ar accounts from_id to_id amount = some accounts1) :
    accounts1 = accounts ∨
      (from_id ≠ to_id ∧ ∃ fromAcc toAcc, accounts.find from_id = some fromAcc ∧
        accounts.find to_id = some toAcc ∧ fromAcc.balance ≥ amount ∧
        accounts1 = moved ar accounts from_id to_id amount) := by
  by_cases hne : from_id = to_id
  · subst hne
    rw [transfer_self] at h
    injection h with h
    exact Or.inl h.symm
  · cases hf : accounts.find from_id with
    | none => rw [transfer_none_of_absent ar amount hne (Or.inl hf)] at h; cases h
    | some fromAcc =>
      cases ht : accounts.find to_id with
      | none => rw [transfer_none_of_absent ar amount hne (Or.inr ht)] at h; cases h
      | some toAcc =>
        rw [transfer_eq ar amount hne hf ht] at h
        injection h with h
        by_cases hge : fromAcc.balance ≥ amount
        · rw [if_pos hge] at h
          exact Or.inr ⟨hne, fromAcc, toAcc, rfl, rfl, hge, h.symm⟩
        · rw [if_neg hge] at h
          exact Or.inl h.symm

theorem find_moved (ar : Arith) {accounts : Accounts} (from_id to_id amount k : Int)
    (hne : from_id ≠ to_id) :
    (moved ar accounts from_id to_id amount).find k =
      if k = to_id then
        (accounts.find to_id).map
          (fun a => { a with balance := ar.store (a.balance + amount) })
      else if k = from_id then
        (accounts.find from_id).map
          (fun a => { a with balance := ar.store (a.balance - amount) })
      else accounts.find k := by
  unfold moved
  rw [Accounts.find_update
    (fun a : BankAccount => { a with balance := ar.store (a.balance + amount) })
    (fun _ => rfl)]
  by_cases h1 : k = to_id
  · subst h1
    rw [if_pos rfl, if_pos rfl, Accounts.find_update_other
      (fun a : BankAccount => { a with balance := ar.store (a.balance - amount) })
      (fun _ => rfl) (Ne.symm hne)]
  · rw [if_neg h1, if_neg h1, Accounts.find_update
      (fun a : BankAccount => { a with balance := ar.store (a.balance - amount) })
      (fun _ => rfl)]

theorem total_moved (ar : Arith) {accounts : Accounts} {from_id to_id : Int}
    {fromAcc toAcc : BankAccount}
    (amount : Int) (hne : from_id ≠ to_id) (hf : accounts.find from_id = some fromAcc)
    (ht : accounts.find to_id = some toAcc) :
    (moved ar accounts from_id to_id amount).total =
      accounts.total - fromAcc.balance + ar.store (fromAcc.balance - amount)
        - toAcc.balance + ar.store (toAcc.balance + amount) := by
  unfold moved
  have ht1 : (accounts.update from_id
      (fun a => { a with balance := ar.store (a.balance - amount) })).find to_id =
        some toAcc := by
    rw [Accounts.find_update_other
      (fun a : BankAccount => { a with balance := ar.store (a.balance - amount) })
      (fun _ => rfl) (Ne.symm hne)]
    exact ht
  rw [Accounts.total_update _ ht1, Accounts.total_update _ hf]

theorem find_isSome_moved (ar : Arith) {accounts : Accounts} (from_id to_id amount k : Int)
    (hne : from_id ≠ to_id) :
    ((moved ar accounts from_id to_id amount).find k).isSome = (accounts.find k).isSome := by
  rw [find_moved ar _ _ _ _ hne]
  by_cases h1 : k = to_id
  · subst h1; simp
  · by_cases h2 : k = from_id
    · subst h2; simp [h1]
    · simp [h1, h2]

theorem transfer_find_isSome {ar : Arith} {accounts accounts1 : Accounts}
    {from_id to_id amount : Int}
    (h : transfer ar accounts from_id to_id amount = some accounts1) (k : Int) :
    (accounts1.find k).isSome = (accounts.find k).isSome := by
  rcases transfer_cases h with h1 | ⟨hne, _, _, _, _, _, h1⟩
  · rw [h1]
  · rw [h1, find_isSome_moved ar _ _ _ _ hne]

theorem transfer_isSome (ar : Arith) {accounts : Accounts} {from_id to_id : Int}
    (amount : Int)
    (hf : (accounts.find from_id).isSome) (ht : (accounts.find to_id).isSome) :
    ∃ accounts1, transfer ar accounts from_id to_id amount = some accounts1 := by
  by_cases hne : from_id = to_id
  · subst hne
    exact ⟨accounts, transfer_self ar accounts from_id amount⟩
  · obtain ⟨fromAcc, hf1⟩ := Option.isSome_iff_exists.1 hf
    obtain ⟨toAcc, ht1⟩ := Option.isSome_iff_exists.1 ht
    exact ⟨_, transfer_eq ar amount hne hf1 ht1⟩

/-- A transfer on the 32-bit ledger whose writes stay in range keeps the sum. -/
theorem transfer_total_of_fits {accounts accounts1 : Accounts} {from_id to_id amount : Int}
    (h : transfer Arith.int32 accounts from_id to_id amount = some accounts1)
    (hfits : transferFits accounts from_id to_id amount = true) :
    accounts1.total = accounts.total := by
  rcases transfer_cases h with h1 | ⟨hne, fromAcc, toAcc, hf, ht, hge, h1⟩
  · rw [h1]
  · simp only [transferFits, if_neg hne, hf, ht, if_pos hge, Bool.and_eq_true,
      decide_eq_true_eq] at hfits
    rw [h1, total_moved Arith.int32 amount hne hf ht, store_int32_of_fitsInt hfits.1,
      store_int32_of_fitsInt hfits.2]
    ring

/-- One round trip on the 32-bit ledger: `m` goes from `a` to `b` and comes back. -/
theorem transfer_round_trip {accounts : Accounts} {a b m : Int} {accA accB : BankAccount}
    (hne : a ≠ b) (ha : accounts.find a = some accA) (hb : accounts.find b = some accB)
    (hm : 0 ≤ m) (hA : accA.balance ≥ m) (hAfit : accA.balance ≤ 2147483647)
    (hB : 0 ≤ accB.balance) (hBfit : accB.balance + m ≤ 2147483647) :
    ∃ accounts1, transfer Arith.int32 accounts a b m = some accounts1 ∧
      ∃ accounts2, transfer Arith.int32 accounts1 b a m = some accounts2 ∧
        ∀ k, accounts2.find k = accounts.find k := by
  have e1 : Arith.int32.store (accA.balance - m) = accA.balance - m :=
    store_int32_of_fitsInt ⟨by omega, by omega⟩
  have e2 : Arith.int32.store (accB.balance + m) = accB.balance + m :=
    store_int32_of_fitsInt ⟨by omega, by omega⟩
  have e3 : Arith.int32.store accB.balance = accB.balance :=
    store_int32_of_fitsInt ⟨by omega, by omega⟩
  have e4 : Arith.int32.store accA.balance = accA.balance :=
    store_int32_of_fitsInt ⟨by omega, by omega⟩
  have h1 : transfer Arith.int32 accounts a b m = some (moved Arith.int32 accounts a b m) := by
    rw [transfer_eq Arith.int32 m hne ha hb, if_pos hA]
  have hb1 : (moved Arith.int32 accounts a b m).find b =
      some { accB with balance := accB.balance + m } := by
    simp [find_moved Arith.int32 _ _ _ _ hne, hb, e2]
  have ha1 : (moved Arith.int32 accounts a b m).find a =
      some { accA with balance := accA.balance - m } := by
    simp [find_moved Arith.int32 _ _ _ _ hne, ha, hne, e1]
  have hB1 : accB.balance + m ≥ m := by omega
  refine ⟨_, h1, moved Arith.int32 (moved Arith.int32 accounts a b m) b a m, ?_, ?_⟩
  · rw [transfer_eq Arith.int32 m (Ne.symm hne) hb1 ha1, if_pos hB1]
  · intro k
    rw [find_moved Arith.int32 _ _ _ _ (Ne.symm hne)]
    by_cases h2 : k = a
    · subst h2
      simp [ha1, ha, e4]
    · by_cases h3 : k = b
      · subst h3
        simp [hb1, hb, h2, e3]
      · simp [h2, h3, find_moved Arith.int32 _ _ _ _ hne]

/-! ## Lemmas on runs over mathematical integers -/

theorem transfer_nonneg {accounts accounts1 : Accounts} {from_id to_id amount : Int}
    (h : transfer Arith.exact accounts from_id to_id amount = some accounts1)
    (hamt : 0 ≤ amount)
    (h0 : ∀ a ∈ accounts, 0 ≤ a.balance) : ∀ a ∈ accounts1, 0 ≤ a.balance := by
  rcases transfer_cases h with h1 | ⟨hne, fromAcc, toAcc, hf, ht, hge, h1⟩
  · rw [h1]; exact h0
  · have hmid : ∀ c ∈ accounts.update from_id
        (fun a => { a with balance := Arith.exact.store (a.balance - amount) }),
        0 ≤ c.balance := by
      intro c hc
      rcases Accounts.mem_update hc with h2 | ⟨d, hd, hcd⟩
      · exact h0 c h2
      · rw [hf] at hd
        injection hd with hd
        rw [hcd, ← hd]
        show 0 ≤ fromAcc.balance - amount
        omega
    intro c hc
    rw [h1] at hc
    rcases Accounts.mem_update hc with h2 | ⟨d, hd, hcd⟩
    · exact hmid c h2
    · have hd0 : 0 ≤ d.balance := by
        rw [Accounts.find_update_other
          (fun a : BankAccount => { a with balance := Arith.exact.store (a.balance - amount) })
          (fun _ => rfl) (Ne.symm hne), ht] at hd
        injection hd with hd
        rw [← hd]
        exact h0 toAcc (Accounts.mem_of_find ht)
      rw [hcd]
      show 0 ≤ d.balance + amount
      omega

theorem withdraw_id (ar : Arith) (amount : Int) (a : BankAccount) :
    (BankAccount.withdraw ar a amount).id = a.id := by
  unfold BankAccount.withdraw; split <;> rfl

theorem withdraw_queue (ar : Arith) (amount : Int) (a : BankAccount) :
    (BankAccount.withdraw ar a amount).transactionQueue = a.transactionQueue := by
  unfold BankAccount.withdraw; split <;> rfl

theorem withdraw_withQueue (ar : Arith) (amount : Int) (queue : List Txn) (a : BankAccount) :
    BankAccount.withdraw ar (a.withQueue queue) amount =
      (BankAccount.withdraw ar a amount).withQueue queue := by
  unfold BankAccount.withdraw BankAccount.withQueue
  by_cases h : a.balance ≥ amount <;> simp [h]

theorem execTxn_nonneg {accounts : Accounts} {self : Int} {txn : Txn}
    (h0 : ∀ a ∈ accounts, 0 ≤ a.balance) (hself : (accounts.find self).isSome)
    (hamt : 0 < txn.2.1) (htgt : txn.1 = "transfer" → (accounts.find txn.2.2).isSome) :
    ∃ accounts1, execTxn Arith.exact accounts self txn = some accounts1 ∧
      (∀ a ∈ accounts1, 0 ≤ a.balance) ∧
      ∀ k, (accounts1.find k).isSome = (accounts.find k).isSome := by
  obtain ⟨account, hacc⟩ := Option.isSome_iff_exists.1 hself
  have hid := Accounts.find_id hacc
  unfold execTxn
  simp only [hacc]
  by_cases h1 : txn.1 = "deposit"
  · rw [if_pos h1]
    refine ⟨_, rfl, ?_, Accounts.find_update_isSome
      (fun a => BankAccount.deposit Arith.exact a txn.2.1) (fun _ => rfl) self⟩
    intro c hc
    rcases Accounts.mem_update hc with h2 | ⟨d, hd, hcd⟩
    · exact h0 c h2
    · have := h0 d (Accounts.mem_of_find hd)
      rw [hcd]
      show 0 ≤ d.balance + txn.2.1
      omega
  · rw [if_neg h1]
    by_cases h2 : txn.1 = "withdraw"
    · rw [if_pos h2]
      refine ⟨_, rfl, ?_, Accounts.find_update_isSome
        (fun a => BankAccount.withdraw Arith.exact a txn.2.1)
        (withdraw_id Arith.exact _) self⟩
      intro c hc
      rcases Accounts.mem_update hc with h3 | ⟨d, hd, hcd⟩
      · exact h0 c h3
      · have := h0 d (Accounts.mem_of_find hd)
        rw [hcd]
        unfold BankAccount.withdraw
        split
        · show 0 ≤ d.balance - txn.2.1
          omega
        · exact this
    · rw [if_neg h2]
      by_cases h3 : txn.1 = "transfer"
      · rw [if_pos h3, hid]
        obtain ⟨accounts1, ht⟩ := transfer_isSome Arith.exact txn.2.1 hself (htgt h3)
        exact ⟨accounts1, ht, transfer_nonneg ht hamt.le h0, transfer_find_isSome ht⟩
      · rw [if_neg h3]
        exact ⟨accounts, rfl, h0, fun _ => rfl⟩

/-! ## Lemmas on the worker -/

theorem Accounts.queueOf_update {accounts : Accounts} (f : BankAccount → BankAccount)
    (hf : ∀ a, (f a).id = a.id) (hq : ∀ a, (f a).transactionQueue = a.transactionQueue)
    (key k : Int) : (accounts.update key f).queueOf k = accounts.queueOf k := by
  unfold Accounts.queueOf
  rw [Accounts.find_update f hf]
  by_cases hk : k = key
  · subst hk
    cases accounts.find k <;> simp [hq]
  · simp [hk]

theorem Accounts.isSome_of_queueOf {accounts accounts1 : Accounts} {k : Int}
    (h : accounts1.queueOf k = accounts.queueOf k) :
    (accounts1.find k).isSome = (accounts.find k).isSome := by
  unfold Accounts.queueOf at h
  cases h1 : accounts1.find k <;> cases h2 : accounts.find k <;> simp [h1, h2] at h ⊢

theorem moved_withQueue (ar : Arith) (accounts : Accounts) (from_id to_id amount self : Int)
    (queue : List Txn) :
    moved ar (accounts.update self (fun a => a.withQueue queue)) from_id to_id amount =
      (moved ar accounts from_id to_id amount).update self (fun a => a.withQueue queue) := by
  unfold moved
  rw [Accounts.update_comm (fun a : BankAccount => a.withQueue queue)
      (fun a : BankAccount => { a with balance := ar.store (a.balance - amount) })
      (fun _ => rfl) (fun _ => rfl) (fun _ => rfl),
    Accounts.update_comm (fun a : BankAccount => a.withQueue queue)
      (fun a : BankAccount => { a with balance := ar.store (a.balance + amount) })
      (fun _ => rfl) (fun _ => rfl) (fun _ => rfl)]

theorem transfer_queueOf {ar : Arith} {accounts accounts1 : Accounts}
    {from_id to_id amount : Int}
    (h : transfer ar accounts from_id to_id amount = some accounts1) (k : Int) :
    accounts1.queueOf k = accounts.queueOf k := by
  rcases transfer_cases h with h1 | ⟨_, _, _, _, _, _, h1⟩
  · rw [h1]
  · rw [h1]
    unfold moved
    rw [Accounts.queueOf_update
        (fun a : BankAccount => { a with balance := ar.store (a.balance + amount) })
        (fun _ => rfl) (fun _ => rfl),
      Accounts.queueOf_update
        (fun a : BankAccount => { a with balance := ar.store (a.balance - amount) })
        (fun _ => rfl) (fun _ => rfl)]

theorem transfer_withQueue {ar : Arith} {accounts accounts1 : Accounts}
    {from_id to_id amount : Int}
    (h : transfer ar accounts from_id to_id amount = some accounts1) (self : Int)
    (queue : List Txn) :
    transfer ar (accounts.update self (fun a => a.withQueue queue)) from_id to_id amount =
      some (accounts1.update self (fun a => a.withQueue queue)) := by
  by_cases hne : from_id = to_id
  · subst hne
    rw [transfer_self] at h ⊢
    injection h with h
    rw [h]
  · cases hf : accounts.find from_id with
    | none => rw [transfer_none_of_absent ar amount hne (Or.inl hf)] at h; cases h
    | some fromAcc =>
      cases ht : accounts.find to_id with
      | none => rw [transfer_none_of_absent ar amount hne (Or.inr ht)] at h; cases h
      | some toAcc =>
        rw [transfer_eq ar amount hne hf ht] at h
        injection h with h
        have key : ∀ (k : Int) (acc : BankAccount), accounts.find k = some acc →
            ∃ acc1, (accounts.update self (fun a => a.withQueue queue)).find k = some acc1 ∧
              acc1.balance = acc.balance := by
          intro k acc hk
          rw [Accounts.find_update (fun a : BankAccount => a.withQueue queue) (fun _ => rfl)]
          by_cases hks : k = self
          · subst hks
            exact ⟨acc.withQueue queue, by simp [hk], rfl⟩
          · exact ⟨acc, by simp [hks, hk], rfl⟩
        obtain ⟨f1, hf1, hfb⟩ := key from_id fromAcc hf
        obtain ⟨t1, ht1, _⟩ := key to_id toAcc ht
        rw [transfer_eq ar amount hne hf1 ht1, hfb, ← h]
        by_cases hge : fromAcc.balance ≥ amount
        · rw [if_pos hge, if_pos hge, moved_withQueue]
        · rw [if_neg hge, if_neg hge]

theorem execTxn_isSome (ar : Arith) {accounts : Accounts} {self : Int} {txn : Txn}
    (hself : (accounts.find self).isSome)
    (htgt : txn.1 = "transfer" → (accounts.find txn.2.2).isSome) :
    ∃ accounts1, execTxn ar accounts self txn = some accounts1 := by
  obtain ⟨account, hacc⟩ := Option.isSome_iff_exists.1 hself
  have hid := Accounts.find_id hacc
  unfold execTxn
  simp only [hacc]
  by_cases h1 : txn.1 = "deposit"
  · rw [if_pos h1]; exact ⟨_, rfl⟩
  · rw [if_neg h1]
    by_cases h2 : txn.1 = "withdraw"
    · rw [if_pos h2]; exact ⟨_, rfl⟩
    · rw [if_neg h2]
      by_cases h3 : txn.1 = "transfer"
      · rw [if_pos h3, hid]
        exact transfer_isSome ar txn.2.1 hself (htgt h3)
      · rw [if_neg h3]; exact ⟨_, rfl⟩

theorem execTxn_queueOf {ar : Arith} {accounts accounts1 : Accounts} {self : Int} {txn : Txn}
    (h : execTxn ar accounts self txn = some accounts1) (k : Int) :
    accounts1.queueOf k = accounts.queueOf k := by
  unfold execTxn at h
  cases hacc : accounts.find self with
  | none => simp [hacc] at h
  | some account =>
    simp only [hacc] at h
    by_cases h1 : txn.1 = "deposit"
    · rw [if_pos h1] at h
      injection h with h
      rw [← h]
      exact Accounts.queueOf_update (fun a : BankAccount => BankAccount.deposit ar a txn.2.1)
        (fun _ => rfl) (fun _ => rfl) _ _
    · rw [if_neg h1] at h
      by_cases h2 : txn.1 = "withdraw"
      · rw [if_pos h2] at h
        injection h with h
        rw [← h]
        exact Accounts.queueOf_update _ (withdraw_id ar _) (withdraw_queue ar _) _ _
      · rw [if_neg h2] at h
        by_cases h3 : txn.1 = "transfer"
        · rw [if_pos h3] at h
          exact transfer_queueOf h k
        · rw [if_neg h3] at h
          injection h with h
          rw [← h]

theorem execTxn_withQueue {ar : Arith} {accounts accounts1 : Accounts} {self : Int}
    {txn : Txn}
    (h : execTxn ar accounts self txn = some accounts1) (queue : List Txn) :
    execTxn ar (accounts.update self (fun a => a.withQueue queue)) self txn =
      some (accounts1.update self (fun a => a.withQueue queue)) := by
  unfold execTxn at h ⊢
  cases hacc : accounts.find self with
  | none => simp [hacc] at h
  | some account =>
    have hacc1 : (accounts.update self (fun a => a.withQueue queue)).find self =
        some (account.withQueue queue) := by
      rw [Accounts.find_update_self (fun a : BankAccount => a.withQueue queue) (fun _ => rfl),
        hacc]
      rfl
    simp only [hacc] at h
    simp only [hacc1]
    by_cases h1 : txn.1 = "deposit"
    · rw [if_pos h1] at h ⊢
      injection h with h
      rw [← h, Accounts.update_comm (fun a : BankAccount => a.withQueue queue)
        (fun a : BankAccount => BankAccount.deposit ar a txn.2.1)
        (fun _ => rfl) (fun _ => rfl) (fun _ => rfl)]
    · rw [if_neg h1] at h ⊢
      by_cases h2 : txn.1 = "withdraw"
      · rw [if_pos h2] at h ⊢
        injection h with h
        rw [← h, Accounts.update_comm (fun a : BankAccount => a.withQueue queue)
          (fun a : BankAccount => BankAccount.withdraw ar a txn.2.1) (fun _ => rfl)
          (withdraw_id ar _) (withdraw_withQueue ar _ _)]
      · rw [if_neg h2] at h ⊢
        by_cases h3 : txn.1 = "transfer"
        · rw [if_pos h3] at h ⊢
          exact transfer_withQueue h self queue
        · rw [if_neg h3] at h ⊢
          injection h with h
          rw [← h]

theorem processTransactions_run (ar : Arith) (ops : List Txn) :
    ∀ (accounts : Accounts) (self : Int) (account : BankAccount) (fuel : Nat),
      accounts.find self = some account → account.transactionQueue = ops →
      (∀ txn ∈ ops, txn.1 = "transfer" → (accounts.find txn.2.2).isSome) →
      ops.length < fuel →
      ∃ accounts1, processTransactions ar fuel accounts self = some accounts1 ∧
        accounts1.queueOf self = some [] ∧
        runOps ar (accounts.update self (fun a => a.withQueue []))
          (ops.map (fun txn => (self, txn))) = some accounts1 := by
  induction ops with
  | nil =>
    intro accounts self account fuel hacc hq _ hfuel
    obtain ⟨fuel, rfl⟩ : ∃ n, fuel = n + 1 := ⟨fuel - 1, by omega⟩
    refine ⟨accounts, ?_, ?_, ?_⟩
    · simp [processTransactions, hacc, hq]
    · simp [Accounts.queueOf, hacc, hq]
    · have : accounts.update self (fun a => a.withQueue []) = accounts := by
        apply Accounts.update_eq_self
        intro a ha
        rw [hacc] at ha
        injection ha with ha
        rw [← ha]
        cases account
        simp only [BankAccount.withQueue] at hq ⊢
        rw [hq]
      rw [this]
      rfl
  | cons txn rest ih =>
    intro accounts self account fuel hacc hq htg hfuel
    obtain ⟨fuel, rfl⟩ : ∃ n, fuel = n + 1 := ⟨fuel - 1, by omega⟩
    have hlen : rest.length < fuel := by simp at hfuel; omega
    have hsome0 : ∀ k, ((accounts.update self (fun a => a.withQueue rest)).find k).isSome =
        (accounts.find k).isSome :=
      Accounts.find_update_isSome (fun a : BankAccount => a.withQueue rest) (fun _ => rfl) self
    have hself0 : ((accounts.update self (fun a => a.withQueue rest)).find self).isSome := by
      rw [hsome0, hacc]; rfl
    obtain ⟨m1, hm1⟩ := execTxn_isSome ar hself0 (by
      intro h
      rw [hsome0]
      exact htg txn (List.mem_cons_self _ _) h)
    have hq1 : m1.queueOf self = some rest := by
      rw [execTxn_queueOf hm1, Accounts.queueOf,
        Accounts.find_update_self (fun a : BankAccount => a.withQueue rest) (fun _ => rfl), hacc]
      rfl
    obtain ⟨account1, hacc1, hrest1⟩ : ∃ account1, m1.find self = some account1 ∧
        account1.transactionQueue = rest := by
      unfold Accounts.queueOf at hq1
      cases hfind : m1.find self with
      | none => simp [hfind] at hq1
      | some a => exact ⟨a, rfl, by simpa [hfind] using hq1⟩
    have htg1 : ∀ t ∈ rest, t.1 = "transfer" → (m1.find t.2.2).isSome := by
      intro t ht h
      rw [Accounts.isSome_of_queueOf (execTxn_queueOf hm1 t.2.2), hsome0]
      exact htg t (List.mem_cons_of_mem _ ht) h
    obtain ⟨m2, hrun, hempty, hops⟩ := ih m1 self account1 fuel hacc1 hrest1 htg1 hlen
    refine ⟨m2, ?_, hempty, ?_⟩
    · simp only [processTransactions, hacc, hq, hm1]
      exact hrun
    · have hstep := execTxn_withQueue hm1 []
      rw [Accounts.update_update_same (fun a : BankAccount => a.withQueue rest)
        (fun a : BankAccount => a.withQueue []) (fun _ => rfl)] at hstep
      have hstep1 : execTxn ar (accounts.update self (fun a => a.withQueue [])) self txn =
          some (m1.update self (fun a => a.withQueue [])) := hstep
      simp only [List.map_cons, runOps, hstep1]
      exact hops

theorem execTxn_transfer (ar : Arith) {accounts : Accounts} {self : Int}
    (amount target : Int) (hself : (accounts.find self).isSome) :
    execTxn ar accounts self ("transfer", (amount, target)) =
      transfer ar accounts self target amount := by
  obtain ⟨account, hacc⟩ := Option.isSome_iff_exists.1 hself
  have hid := Accounts.find_id hacc
  have h1 : ¬ ("transfer" = "deposit") := by decide
  have h2 : ¬ ("transfer" = "withdraw") := by decide
  simp only [execTxn, hacc, h1, h2, if_false, if_true, hid]

/-! ## The transfer contract -/

/-- C1, counterexample: on the ledger {1: 10, 2: 2147483647} the transfer of 1 from account 1
to account 2 passes the balance check, and account 2 ends with -2147483648, not with its old
balance plus 1. -/
theorem transfer_overflow_counterexample :
    (1 : Int) ≠ 2 ∧
    Accounts.find [⟨1, 10, []⟩, ⟨2, 2147483647, []⟩] 1 = some ⟨1, 10, []⟩ ∧
    Accounts.find [⟨1, 10, []⟩, ⟨2, 2147483647, []⟩] 2 = some ⟨2, 2147483647, []⟩ ∧
    (10 : Int) ≥ 1 ∧
    transfer Arith.int32 [⟨1, 10, []⟩, ⟨2, 2147483647, []⟩] 1 2 1 =
      some [⟨1, 9, []⟩, ⟨2, -2147483648, []⟩] ∧
    Accounts.balanceOf [⟨1, 9, []⟩, ⟨2, -2147483648, []⟩] 2 ≠ some (2147483647 + 1) := by
  decide

/-- C1, amended: for two distinct ids that are both present, `transfer` returns and leaves
every account other than the two as it was.  When the source balance is at least `amount` and
neither new balance leaves the range of `int`, the source ends with its old balance minus
`amount` and the destination with its old balance plus `amount`; when the source balance is
below `amount`, the ledger is returned as it was. -/
theorem transfer_moves_or_refuses (accounts : Accounts) (from_id to_id amount : Int)
    (fromAcc toAcc : BankAccount) (hne : from_id ≠ to_id)
    (hf : accounts.find from_id = some fromAcc) (ht : accounts.find to_id = some toAcc) :
    ∃ accounts1, transfer Arith.int32 accounts from_id to_id amount = some accounts1 ∧
      (∀ k, k ≠ from_id → k ≠ to_id → accounts1.find k = accounts.find k) ∧
      (fromAcc.balance ≥ amount → fitsInt (fromAcc.balance - amount) →
        fitsInt (toAcc.balance + amount) →
          accounts1.balanceOf from_id = some (fromAcc.balance - amount) ∧
          accounts1.balanceOf to_id = some (toAcc.balance + amount)) ∧
      (fromAcc.balance < amount → accounts1 = accounts) := by
  by_cases hge : fromAcc.balance ≥ amount
  · refine ⟨moved Arith.int32 accounts from_id to_id amount, ?_, ?_, ?_, ?_⟩
    · rw [transfer_eq Arith.int32 amount hne hf ht, if_pos hge]
    · intro k h1 h2
      simp [find_moved Arith.int32 _ _ _ _ hne, h1, h2]
    · intro _ h1 h2
      constructor
      · simp [Accounts.balanceOf, find_moved Arith.int32 _ _ _ _ hne, hne, hf,
          store_int32_of_fitsInt h1]
      · simp [Accounts.balanceOf, find_moved Arith.int32 _ _ _ _ hne, ht,
          store_int32_of_fitsInt h2]
    · intro hlt
      exact absurd hge (not_le.2 hlt)
  · refine ⟨accounts, ?_, fun _ _ _ => rfl, fun h => absurd h hge, fun _ => rfl⟩
    rw [transfer_eq Arith.int32 amount hne hf ht, if_neg hge]

/-- Witness for C1 on the ledger {1: 100, 2: 50} and a transfer of 40 from 1 to 2. -/
theorem transfer_moves_or_refuses_witness :
    (1 : Int) ≠ 2 ∧
    Accounts.find [⟨1, 100, []⟩, ⟨2, 50, []⟩] 1 = some ⟨1, 100, []⟩ ∧
    Accounts.find [⟨1, 100, []⟩, ⟨2, 50, []⟩] 2 = some ⟨2, 50, []⟩ ∧
    ∃ accounts1, transfer Arith.int32 [⟨1, 100, []⟩, ⟨2, 50, []⟩] 1 2 40 = some accounts1 ∧
      accounts1.balanceOf 1 = some (100 - 40) ∧
      accounts1.balanceOf 2 = some (50 + 40) :=
  ⟨by decide, by decide, by decide,
    (transfer_moves_or_refuses [⟨1, 100, []⟩, ⟨2, 50, []⟩] 1 2 40 ⟨1, 100, []⟩ ⟨2, 50, []⟩
      (by decide) (by decide) (by decide)).imp
      (fun _ h => ⟨h.1, h.2.2.1 (by decide) (by decide) (by decide)⟩)⟩

/-- C5: a transfer from an account to itself returns the ledger as it was and performs no
mutex operation, for every ledger, id and amount, in either arithmetic. -/
theorem transfer_self_noop (ar : Arith) (accounts : Accounts) (x amount : Int) :
    transferExec ar accounts x x amount = some (accounts, []) ∧
    transfer ar accounts x x amount = some accounts ∧
    transferGuards ar accounts x x amount = some [] := by
  simp [transfer, transferGuards, transferExec]

/-- C2, counterexample: with balance 2147483647 and amount -1 the check `balance >= amount`
passes and `withdraw` leaves the balance -2147483648, not 2147483647 - (-1). -/
theorem withdraw_overflow_counterexample :
    (2147483647 : Int) ≥ -1 ∧
    (BankAccount.withdraw Arith.int32 ⟨1, 2147483647, []⟩ (-1)).balance = -2147483648 ∧
    (BankAccount.withdraw Arith.int32 ⟨1, 2147483647, []⟩ (-1)).balance ≠
      2147483647 - (-1) := by
  decide

/-- C2, amended: `withdraw` sets the balance to `b - a` when `b ≥ a` and `b - a` lies in the
range of `int`, which is so whenever `b` lies in that range and `a ≥ 0`; it leaves the balance
at `b` when `b < a`; executed by the worker of the account, it rewrites that account only. -/
theorem withdraw_debits_or_refuses (accounts : Accounts) (self : Int) (account : BankAccount)
    (amount dest : Int) (h : accounts.find self = some account) :
    (account.balance ≥ amount → fitsInt (account.balance - amount) →
      (BankAccount.withdraw Arith.int32 account amount).balance = account.balance - amount) ∧
    (account.balance ≥ amount → fitsInt account.balance → 0 ≤ amount →
      (BankAccount.withdraw Arith.int32 account amount).balance = account.balance - amount) ∧
    (account.balance < amount →
      (BankAccount.withdraw Arith.int32 account amount).balance = account.balance) ∧
    ∃ accounts1,
      execTxn Arith.int32 accounts self ("withdraw", (amount, dest)) = some accounts1 ∧
      accounts1.find self = some (BankAccount.withdraw Arith.int32 account amount) ∧
      ∀ k, k ≠ self → accounts1.find k = accounts.find k := by
  have hfit : account.balance ≥ amount → fitsInt (account.balance - amount) →
      (BankAccount.withdraw Arith.int32 account amount).balance =
        account.balance - amount := by
    intro hge h1
    simp only [BankAccount.withdraw, if_pos hge]
    exact store_int32_of_fitsInt h1
  refine ⟨hfit, ?_, ?_,
    accounts.update self (fun a => BankAccount.withdraw Arith.int32 a amount), ?_, ?_, ?_⟩
  · intro hge hb ha
    apply hfit hge
    unfold fitsInt at hb ⊢
    omega
  · intro hlt; simp [BankAccount.withdraw, not_le.2 hlt]
  · simp [execTxn, h]
  · rw [Accounts.find_update_self (fun a => BankAccount.withdraw Arith.int32 a amount)
      (withdraw_id Arith.int32 amount), h]
    rfl
  · intro k hk
    exact Accounts.find_update_other (fun a => BankAccount.withdraw Arith.int32 a amount)
      (withdraw_id Arith.int32 amount) hk

/-- Witness for C2: an account with balance 10 and a debit of 50 ends with balance 10, and a
debit of 4 ends with balance 6. -/
theorem withdraw_debits_or_refuses_witness :
    Accounts.find [⟨1, 10, []⟩] 1 = some ⟨1, 10, []⟩ ∧
    (BankAccount.withdraw Arith.int32 ⟨1, 10, []⟩ 50).balance = 10 ∧
    (BankAccount.withdraw Arith.int32 ⟨1, 10, []⟩ 4).balance = 10 - 4 ∧
    ∃ accounts1,
      execTxn Arith.int32 [⟨1, 10, []⟩] 1 ("withdraw", (50, -1)) = some accounts1 ∧
      accounts1.find 1 = some (BankAccount.withdraw Arith.int32 ⟨1, 10, []⟩ 50) ∧
      ∀ k, k ≠ 1 → accounts1.find k = Accounts.find [⟨1, 10, []⟩] k :=
  ⟨by decide,
    (withdraw_debits_or_refuses [⟨1, 10, []⟩] 1 ⟨1, 10, []⟩ 50 (-1) (by decide)).2.2.1
      (by decide),
    (withdraw_debits_or_refuses [⟨1, 10, []⟩] 1 ⟨1, 10, []⟩ 4 (-1) (by decide)).1
      (by decide) (by decide),
    (withdraw_debits_or_refuses [⟨1, 10, []⟩] 1 ⟨1, 10, []⟩ 50 (-1) (by decide)).2.2.2⟩

/-- C9, counterexample: with both balances 2147483647 and `m = 1` every condition of the claim
holds, yet the transfer from 1 to 2 leaves account 2 at -2147483648, the transfer back is
refused, and the accounts end with 2147483646 and -2147483648. -/
theorem opposite_transfers_overflow_counterexample :
    (1 : Int) ≠ 2 ∧ (0 : Int) ≤ 1 ∧ (2147483647 : Int) ≥ 1 ∧
    transfer Arith.int32 [⟨1, 2147483647, []⟩, ⟨2, 2147483647, []⟩] 1 2 1 =
      some [⟨1, 2147483646, []⟩, ⟨2, -2147483648, []⟩] ∧
    transfer Arith.int32 [⟨1, 2147483646, []⟩, ⟨2, -2147483648, []⟩] 2 1 1 =
      some [⟨1, 2147483646, []⟩, ⟨2, -2147483648, []⟩] ∧
    Accounts.balanceOf [⟨1, 2147483646, []⟩, ⟨2, -2147483648, []⟩] 1 ≠ some 2147483647 ∧
    Accounts.balanceOf [⟨1, 2147483646, []⟩, ⟨2, -2147483648, []⟩] 2 ≠ some 2147483647 := by
  decide

/-- C9, amended: for distinct present accounts `a` and `b` whose balances are both at least
`m ≥ 0` and stay within the range of `int` when `m` is added, the transfer of `m` from `a` to
`b` followed by the transfer of `m` from `b` to `a`, and the two transfers in the other order,
both succeed and end with every account as it was. -/
theorem opposite_transfers_cancel (accounts : Accounts) (a b m : Int) (accA accB : BankAccount)
    (hne : a ≠ b) (ha : accounts.find a = some accA) (hb : accounts.find b = some accB)
    (hm : 0 ≤ m) (hA : accA.balance ≥ m) (hB : accB.balance ≥ m)
    (hAfit : accA.balance + m ≤ 2147483647) (hBfit : accB.balance + m ≤ 2147483647) :
    (∃ accounts1, transfer Arith.int32 accounts a b m = some accounts1 ∧
      ∃ accounts2, transfer Arith.int32 accounts1 b a m = some accounts2 ∧
        accounts2.balanceOf a = some accA.balance ∧
        accounts2.balanceOf b = some accB.balance ∧
        ∀ k, accounts2.find k = accounts.find k) ∧
    (∃ accounts1, transfer Arith.int32 accounts b a m = some accounts1 ∧
      ∃ accounts2, transfer Arith.int32 accounts1 a b m = some accounts2 ∧
        accounts2.balanceOf a = some accA.balance ∧
        accounts2.balanceOf b = some accB.balance ∧
        ∀ k, accounts2.find k = accounts.find k) := by
  constructor
  · obtain ⟨m1, h1, m2, h2, h3⟩ :=
      transfer_round_trip hne ha hb hm hA (by omega) (by omega) hBfit
    exact ⟨m1, h1, m2, h2, by simp [Accounts.balanceOf, h3, ha],
      by simp [Accounts.balanceOf, h3, hb], h3⟩
  · obtain ⟨m1, h1, m2, h2, h3⟩ :=
      transfer_round_trip (Ne.symm hne) hb ha hm hB (by omega) (by omega) hAfit
    exact ⟨m1, h1, m2, h2, by simp [Accounts.balanceOf, h3, ha],
      by simp [Accounts.balanceOf, h3, hb], h3⟩

/-- Witness for C9: with both balances 100 and `m = 50` both orders end with 100 and 100. -/
theorem opposite_transfers_cancel_witness :
    (∃ accounts1, transfer Arith.int32 [⟨1, 100, []⟩, ⟨2, 100, []⟩] 1 2 50 = some accounts1 ∧
      ∃ accounts2, transfer Arith.int32 accounts1 2 1 50 = some accounts2 ∧
        accounts2.balanceOf 1 = some 100 ∧
        accounts2.balanceOf 2 = some 100 ∧
        ∀ k, accounts2.find k = Accounts.find [⟨1, 100, []⟩, ⟨2, 100, []⟩] k) ∧
    (∃ accounts1, transfer Arith.int32 [⟨1, 100, []⟩, ⟨2, 100, []⟩] 2 1 50 = some accounts1 ∧
      ∃ accounts2, transfer Arith.int32 accounts1 1 2 50 = some accounts2 ∧
        accounts2.balanceOf 1 = some 100 ∧
        accounts2.balanceOf 2 = some 100 ∧
        ∀ k, accounts2.find k = Accounts.find [⟨1, 100, []⟩, ⟨2, 100, []⟩] k) :=
  opposite_transfers_cancel [⟨1, 100, []⟩, ⟨2, 100, []⟩] 1 2 50 ⟨1, 100, []⟩ ⟨2, 100, []⟩
    (by decide) (by decide) (by decide) (by decide) (by decide) (by decide) (by decide)
    (by decide)

/-- C10: for distinct present ids `a` and `b`, `transfer(a, b, amount)` and
`transfer(b, a, amount)` perform the same mutex operations: lock `min a b`, lock `max a b`,
unlock `max a b`, unlock `min a b`.  Every lock in this trace is taken while only mutexes of
strictly smaller ids are held, and no mutex is held after it, whatever the amount and in
either arithmetic. -/
theorem transfer_lock_order (ar : Arith) (accounts : Accounts) (a b amount : Int)
    (accA accB : BankAccount)
    (hne : a ≠ b) (ha : accounts.find a = some accA) (hb : accounts.find b = some accB) :
    ∃ trace, transferGuards ar accounts a b amount = some trace ∧
      transferGuards ar accounts b a amount = some trace ∧
      trace = [GuardAction.lock (min a b), GuardAction.lock (max a b),
        GuardAction.unlock (max a b), GuardAction.unlock (min a b)] ∧
      lockOrderOk [] trace = true ∧
      heldAfter [] trace = [] := by
  refine ⟨_, ?_, ?_, rfl, ?_, ?_⟩
  · simp [transferGuards, transferExec_eq ar amount hne ha hb]
  · simp [transferGuards, transferExec_eq ar amount (Ne.symm hne) hb ha, min_comm b a,
      max_comm b a]
  · simp [lockOrderOk, Ne.symm hne]
  · simp [heldAfter]

/-- Witness for C10 on the ledger {1: 100, 2: 50}, ids 2 and 1, amount 500 (refused). -/
theorem transfer_lock_order_witness :
    ∃ trace, transferGuards Arith.int32 [⟨1, 100, []⟩, ⟨2, 50, []⟩] 2 1 500 = some trace ∧
      transferGuards Arith.int32 [⟨1, 100, []⟩, ⟨2, 50, []⟩] 1 2 500 = some trace ∧
      trace = [GuardAction.lock (min 2 1), GuardAction.lock (max 2 1),
        GuardAction.unlock (max 2 1), GuardAction.unlock (min 2 1)] ∧
      lockOrderOk [] trace = true ∧
      heldAfter [] trace = [] :=
  transfer_lock_order Arith.int32 [⟨1, 100, []⟩, ⟨2, 50, []⟩] 2 1 500 ⟨2, 50, []⟩
    ⟨1, 100, []⟩ (by decide) (by decide) (by decide)

/-! ## Invariants of runs -/

/-- C3, counterexample: on the ledger {1: 10, 2: 2147483647} the single transfer of 1 from
account 1 to account 2 leaves the balances 9 and -2147483648: the sum goes from 2147483657 to
-2147483639. -/
theorem transfers_overflow_counterexample :
    (Accounts.find [⟨1, 10, []⟩, ⟨2, 2147483647, []⟩] 1).isSome = true ∧
    (Accounts.find [⟨1, 10, []⟩, ⟨2, 2147483647, []⟩] 2).isSome = true ∧
    runTransfers Arith.int32 [⟨1, 10, []⟩, ⟨2, 2147483647, []⟩] [(1, 2, 1)] =
      some [⟨1, 9, []⟩, ⟨2, -2147483648, []⟩] ∧
    Accounts.total [⟨1, 10, []⟩, ⟨2, 2147483647, []⟩] = 2147483657 ∧
    Accounts.total [⟨1, 9, []⟩, ⟨2, -2147483648, []⟩] = -2147483639 ∧
    Accounts.total [⟨1, 9, []⟩, ⟨2, -2147483648, []⟩] ≠
      Accounts.total [⟨1, 10, []⟩, ⟨2, 2147483647, []⟩] := by
  decide

/-- C3, amended: every finite sequence of transfers between present accounts, applied one
after another in the order given (so in every order), runs to the end, and the workers of the
source accounts executing the same transfers from their queues reach the same ledger; when no
balance written during the run leaves the range of `int`, the sum of all balances is as it
was, whether the single transfers go through or are refused. -/
theorem transfers_conserve_total (accounts : Accounts) (ts : List (Int × Int × Int))
    (h : ∀ t ∈ ts, (accounts.find t.1).isSome ∧ (accounts.find t.2.1).isSome) :
    ∃ accounts1, runTransfers Arith.int32 accounts ts = some accounts1 ∧
      runOps Arith.int32 accounts (ts.map (fun t => (t.1, ("transfer", (t.2.2, t.2.1))))) =
        some accounts1 ∧
      (runFits accounts ts = true → accounts1.total = accounts.total) := by
  induction ts generalizing accounts with
  | nil => exact ⟨accounts, rfl, rfl, fun _ => rfl⟩
  | cons t rest ih =>
    obtain ⟨from_id, to_id, amount⟩ := t
    have ht := h (from_id, to_id, amount) (List.mem_cons_self _ _)
    obtain ⟨m1, hm1⟩ := transfer_isSome Arith.int32 amount ht.1 ht.2
    have hrest : ∀ t ∈ rest, (m1.find t.1).isSome ∧ (m1.find t.2.1).isSome := by
      intro t hmem
      rw [transfer_find_isSome hm1, transfer_find_isSome hm1]
      exact h t (List.mem_cons_of_mem _ hmem)
    obtain ⟨m2, hm2, hops, htot⟩ := ih m1 hrest
    refine ⟨m2, ?_, ?_, ?_⟩
    · simp only [runTransfers, hm1]
      exact hm2
    · have hstep : execTxn Arith.int32 accounts from_id ("transfer", (amount, to_id)) =
          some m1 := by
        rw [execTxn_transfer Arith.int32 amount to_id ht.1]; exact hm1
      simp only [List.map_cons, runOps, hstep]
      exact hops
    · intro hfits
      simp only [runFits, hm1, Bool.and_eq_true] at hfits
      rw [htot hfits.2, transfer_total_of_fits hm1 hfits.1]

/-- Witness for C3: on {1: 100, 2: 100, 3: 0} the transfers 1→2 of 50, 2→1 of 500 (refused)
and 3→1 of 0 keep the sum at 200. -/
theorem transfers_conserve_total_witness :
    ∃ accounts1,
      runTransfers Arith.int32 [⟨1, 100, []⟩, ⟨2, 100, []⟩, ⟨3, 0, []⟩]
        [(1, 2, 50), (2, 1, 500), (3, 1, 0)] = some accounts1 ∧
      runOps Arith.int32 [⟨1, 100, []⟩, ⟨2, 100, []⟩, ⟨3, 0, []⟩]
        (List.map (fun t => (t.1, ("transfer", (t.2.2, t.2.1))))
          [(1, 2, 50), (2, 1, 500), (3, 1, 0)]) = some accounts1 ∧
      accounts1.total = Accounts.total [⟨1, 100, []⟩, ⟨2, 100, []⟩, ⟨3, 0, []⟩] :=
  (transfers_conserve_total [⟨1, 100, []⟩, ⟨2, 100, []⟩, ⟨3, 0, []⟩]
    [(1, 2, 50), (2, 1, 500), (3, 1, 0)] (by decide)).imp
    (fun _ h => ⟨h.1, h.2.1, h.2.2 (by decide)⟩)

/-- C4: from a ledger whose balances are all `≥ 0`, every finite sequence of deposits,
withdrawals and transfers with amounts `> 0`, executed by workers of present accounts with
present transfer destinations, runs to the end, and after every prefix of the sequence every
balance is `≥ 0`, balances being mathematical integers. -/
theorem balances_never_negative (accounts : Accounts) (ops : List (Int × Txn))
    (h0 : ∀ a ∈ accounts, 0 ≤ a.balance)
    (hops : ∀ op ∈ ops, (accounts.find op.1).isSome ∧ 0 < op.2.2.1 ∧
      (op.2.1 = "transfer" → (accounts.find op.2.2.2).isSome))
    (n : Nat) :
    ∃ accounts1, runOps Arith.exact accounts (ops.take n) = some accounts1 ∧
      ∀ a ∈ accounts1, 0 ≤ a.balance := by
  induction ops generalizing accounts n with
  | nil => exact ⟨accounts, by simp [runOps], h0⟩
  | cons op rest ih =>
    cases n with
    | zero => exact ⟨accounts, by simp [runOps], h0⟩
    | succ n =>
      obtain ⟨self, txn⟩ := op
      have hop := hops (self, txn) (List.mem_cons_self _ _)
      obtain ⟨m1, hm1, hpos, hsome⟩ := execTxn_nonneg h0 hop.1 hop.2.1 hop.2.2
      have hrest : ∀ op ∈ rest, (m1.find op.1).isSome ∧ 0 < op.2.2.1 ∧
          (op.2.1 = "transfer" → (m1.find op.2.2.2).isSome) := by
        intro op hmem
        rw [hsome, hsome]
        exact hops op (List.mem_cons_of_mem _ hmem)
      obtain ⟨m2, hm2, hpos2⟩ := ih m1 hpos hrest n
      refine ⟨m2, ?_, hpos2⟩
      simp only [List.take_succ_cons, runOps, hm1]
      exact hm2

/-- Witness for C4: on {1: 10, 2: 0} a withdrawal of 50 from 1, a transfer of 10 from 1 to 2,
a transfer of 1 from 1 to 2 and a deposit of 5 into 2 leave no balance negative. -/
theorem balances_never_negative_witness :
    ∃ accounts1,
      runOps Arith.exact [⟨1, 10, []⟩, ⟨2, 0, []⟩]
        (List.take 4 [(1, ("withdraw", (50, -1))), (1, ("transfer", (10, 2))),
          (1, ("transfer", (1, 2))), (2, ("deposit", (5, -1)))]) = some accounts1 ∧
      ∀ a ∈ accounts1, 0 ≤ a.balance :=
  balances_never_negative [⟨1, 10, []⟩, ⟨2, 0, []⟩]
    [(1, ("withdraw", (50, -1))), (1, ("transfer", (10, 2))),
      (1, ("transfer", (1, 2))), (2, ("deposit", (5, -1)))]
    (by decide) (by decide) 4

/-! ## Building the ledger -/

/-- C6, counterexample: on the ledger {1: 100}, creating account 1 again with balance 5 does
not leave the account with balance 100; it ends with balance 5. -/
theorem createAccount_duplicate_counterexample :
    Accounts.find [⟨1, 100, []⟩] 1 = some ⟨1, 100, []⟩ ∧
    Accounts.balanceOf (createAccount [⟨1, 100, []⟩] 1 5) 1 = some 5 ∧
    Accounts.balanceOf (createAccount [⟨1, 100, []⟩] 1 5) 1 ≠ some 100 ∧
    createAccount [⟨1, 100, []⟩] 1 5 ≠ [⟨1, 100, []⟩] := by
  decide

/-- C6, amended: creating an account under an id, present or not, stores a fresh account
with the given balance and an empty queue under that id and changes no other account. -/
theorem createAccount_replaces (accounts : Accounts) (x b1 : Int) :
    (createAccount accounts x b1).find x = some ⟨x, b1, []⟩ ∧
    (createAccount accounts x b1).balanceOf x = some b1 ∧
    (createAccount accounts x b1).queueOf x = some [] ∧
    ∀ k, k ≠ x → (createAccount accounts x b1).find k = accounts.find k := by
  have h := Accounts.find_assign_self accounts (BankAccount.new x b1)
  have h1 : (createAccount accounts x b1).find x = some ⟨x, b1, []⟩ := h
  refine ⟨h1, ?_, ?_, ?_⟩
  · simp [Accounts.balanceOf, h1]
  · simp [Accounts.queueOf, h1]
  · intro k hk
    exact Accounts.find_assign_other accounts (BankAccount.new x b1) hk

/-- C7: when the originating id is absent, or the type is `transfer` and the destination is
absent, the enqueue step returns the ledger as it was; otherwise it appends the transaction
to the end of the queue of the originating account and changes nothing else. -/
theorem enqueue_rejects_or_appends (accounts : Accounts) (acc_id : Int) (type : String)
    (amount destInput : Int) :
    ((accounts.find acc_id = none ∨ (type = "transfer" ∧ accounts.find destInput = none)) →
      enqueueTransaction accounts acc_id type amount destInput = accounts) ∧
    (¬ (accounts.find acc_id = none ∨ (type = "transfer" ∧ accounts.find destInput = none)) →
      ∃ account, accounts.find acc_id = some account ∧
        (enqueueTransaction accounts acc_id type amount destInput).find acc_id =
          some { account with transactionQueue := account.transactionQueue ++
            [(type, (amount, if type = "transfer" then destInput else -1))] } ∧
        ∀ k, k ≠ acc_id →
          (enqueueTransaction accounts acc_id type amount destInput).find k =
            accounts.find k) := by
  constructor
  · rintro (h | ⟨h1, h2⟩)
    · simp [enqueueTransaction, h]
    · cases h : accounts.find acc_id with
      | none => simp [enqueueTransaction, h]
      | some account => simp [enqueueTransaction, h, h1, h2]
  · intro hn
    rw [not_or] at hn
    obtain ⟨h1, h2⟩ := hn
    cases h : accounts.find acc_id with
    | none => exact absurd h h1
    | some account =>
      refine ⟨account, rfl, ?_⟩
      by_cases ht : type = "transfer"
      · cases hd : accounts.find destInput with
        | none => exact absurd ⟨ht, hd⟩ h2
        | some d =>
          simp only [enqueueTransaction, h, ht, hd, if_true]
          refine ⟨?_, ?_⟩
          · rw [Accounts.find_update_self (fun a : BankAccount => { a with transactionQueue :=
              a.transactionQueue ++ [("transfer", (amount, destInput))] }) (fun _ => rfl), h]
            rfl
          · intro k hk
            exact Accounts.find_update_other (fun a : BankAccount => { a with transactionQueue :=
              a.transactionQueue ++ [("transfer", (amount, destInput))] }) (fun _ => rfl) hk
      · simp only [enqueueTransaction, h, ht, if_false]
        refine ⟨?_, ?_⟩
        · rw [Accounts.find_update_self (fun a : BankAccount => { a with transactionQueue :=
            a.transactionQueue ++ [(type, (amount, -1))] }) (fun _ => rfl), h]
          rfl
        · intro k hk
          exact Accounts.find_update_other (fun a : BankAccount => { a with transactionQueue :=
            a.transactionQueue ++ [(type, (amount, -1))] }) (fun _ => rfl) hk

/-- Witness for C7 on the ledger {1: 100, 2: 50}: a transfer to the absent id 9 is dropped,
a transfer to the present id 2 is appended to the queue of account 1. -/
theorem enqueue_rejects_or_appends_witness :
    enqueueTransaction [⟨1, 100, []⟩, ⟨2, 50, []⟩] 1 "transfer" 40 9 =
      [⟨1, 100, []⟩, ⟨2, 50, []⟩] ∧
    ∃ account, Accounts.find [⟨1, 100, []⟩, ⟨2, 50, []⟩] 1 = some account ∧
      (enqueueTransaction [⟨1, 100, []⟩, ⟨2, 50, []⟩] 1 "transfer" 40 2).find 1 =
        some { account with transactionQueue := account.transactionQueue ++
          [("transfer", (40, if "transfer" = "transfer" then 2 else -1))] } ∧
      ∀ k, k ≠ 1 →
        (enqueueTransaction [⟨1, 100, []⟩, ⟨2, 50, []⟩] 1 "transfer" 40 2).find k =
          Accounts.find [⟨1, 100, []⟩, ⟨2, 50, []⟩] k :=
  ⟨(enqueue_rejects_or_appends [⟨1, 100, []⟩, ⟨2, 50, []⟩] 1 "transfer" 40 9).1 (by decide),
    (enqueue_rejects_or_appends [⟨1, 100, []⟩, ⟨2, 50, []⟩] 1 "transfer" 40 2).2 (by decide)⟩

/-! ## The worker -/

/-- C8: for an account whose queue holds `o1, ..., on` (transfer destinations present), the
worker `processTransactions`, given more fuel than the queue is long, returns; the queue of
the account is empty afterwards, and the ledger is the one obtained from the ledger with that
queue emptied by executing `o1`, then `o2`, ..., then `on` for this account, in either
arithmetic. -/
theorem processTransactions_drains_fifo (ar : Arith) (accounts : Accounts) (self : Int)
    (account : BankAccount) (fuel : Nat) (hacc : accounts.find self = some account)
    (htg : ∀ txn ∈ account.transactionQueue,
      txn.1 = "transfer" → (accounts.find txn.2.2).isSome)
    (hfuel : account.transactionQueue.length < fuel) :
    ∃ accounts1, processTransactions ar fuel accounts self = some accounts1 ∧
      accounts1.queueOf self = some [] ∧
      runOps ar (accounts.update self (fun a => a.withQueue []))
        (account.transactionQueue.map (fun txn => (self, txn))) = some accounts1 :=
  processTransactions_run ar account.transactionQueue accounts self account fuel hacc rfl htg
    hfuel

/-- Witness for C8: with accounts {1: 100, 2: 50} and the queue of account 1 holding a deposit
of 20, a withdrawal of 30 and a transfer of 40 to account 2, the worker of account 1 ends
with the balances 50 and 90 and an empty queue. -/
theorem processTransactions_drains_fifo_witness :
    processTransactions Arith.int32 4 [⟨1, 100, [("deposit", (20, -1)),
      ("withdraw", (30, -1)), ("transfer", (40, 2))]⟩, ⟨2, 50, []⟩] 1 =
        some [⟨1, 50, []⟩, ⟨2, 90, []⟩] ∧
    ∃ accounts1, processTransactions Arith.int32 4 [⟨1, 100, [("deposit", (20, -1)),
        ("withdraw", (30, -1)), ("transfer", (40, 2))]⟩, ⟨2, 50, []⟩] 1 = some accounts1 ∧
      accounts1.queueOf 1 = some [] ∧
      runOps Arith.int32 (Accounts.update [⟨1, 100, [("deposit", (20, -1)),
          ("withdraw", (30, -1)), ("transfer", (40, 2))]⟩, ⟨2, 50, []⟩] 1
          (fun a => a.withQueue []))
        (List.map (fun txn => (1, txn)) [("deposit", (20, -1)), ("withdraw", (30, -1)),
          ("transfer", (40, 2))]) = some accounts1 :=
  ⟨by decide,
    processTransactions_drains_fifo Arith.int32 [⟨1, 100, [("deposit", (20, -1)),
      ("withdraw", (30, -1)), ("transfer", (40, 2))]⟩, ⟨2, 50, []⟩] 1 ⟨1, 100,
      [("deposit", (20, -1)), ("withdraw", (30, -1)), ("transfer", (40, 2))]⟩ 4
      (by decide) (by decide) (by decide)⟩

end BankingSystem
